import Mathlib

set_option maxRecDepth 8000

/-
Verification development for the fluidloom-vk core.

Each C++ component the claims touch is shallowly embedded as executable Lean
definitions translated from the source files under src/.  Machine integers are
modelled as Nat / Int with explicit wrap-arounds where the C++ width matters;
calls into external collaborators (the Vulkan allocator, openssl SHA-256, the
NanoVDB container library) are modelled as parameters or as input data, as the
spec designates them external interfaces.
-/

/-- Signed voxel coordinate, the embedding of nanovdb::Coord (three 32-bit
signed integers; none of the verified operations leave the int32 range on the
inputs considered). -/
structure Coord3 where
  x : Int
  y : Int
  z : Int
deriving DecidableEq

namespace TopologyRebuilder

/-- Parent coordinate oldLUT[i] / 2 componentwise; C++ signed division truncates
toward zero, which is Int.tdiv. -/
def parentCoord (c : Coord3) : Coord3 :=
  ⟨Int.tdiv c.x 2, Int.tdiv c.y 2, Int.tdiv c.z 2⟩

/-- The 8 children pushed for a refined voxel: baseCoord = oldLUT[i] * 2 and
offsets (dx,dy,dz) produced by the source loops (dz outermost, dx innermost). -/
def childCoords (c : Coord3) : List Coord3 :=
  [⟨2*c.x, 2*c.y, 2*c.z⟩, ⟨2*c.x+1, 2*c.y, 2*c.z⟩,
   ⟨2*c.x, 2*c.y+1, 2*c.z⟩, ⟨2*c.x+1, 2*c.y+1, 2*c.z⟩,
   ⟨2*c.x, 2*c.y, 2*c.z+1⟩, ⟨2*c.x+1, 2*c.y, 2*c.z+1⟩,
   ⟨2*c.x, 2*c.y+1, 2*c.z+1⟩, ⟨2*c.x+1, 2*c.y+1, 2*c.z+1⟩]

/-- Total lexicographic order on coordinates; the final std::sort of
processRefinementActions uses the strict comparator (x, then y, then z), and
sorting with respect to it is sorting by this total order. -/
def coordLe (a b : Coord3) : Prop :=
  a.x < b.x ∨ (a.x = b.x ∧ (a.y < b.y ∨ (a.y = b.y ∧ a.z ≤ b.z)))

instance : DecidableRel coordLe := fun a b => by
  unfold coordLe
  infer_instance

/-- Helper for dedupAdj: drops every element equal to the last kept one. -/
def dedupAdjGo (a : Coord3) : List Coord3 → List Coord3
  | [] => []
  | b :: rest => if a = b then dedupAdjGo a rest else b :: dedupAdjGo b rest

/-- Adjacent deduplication, the embedding of std::unique + erase (keeps the
first element of every run of equal coordinates). -/
def dedupAdj : List Coord3 → List Coord3
  | [] => []
  | a :: rest => a :: dedupAdjGo a rest

/-- Helper for the first pass of processRefinementActions: append index i to the
sibling group of parent p, creating the group if absent (bucket contents of the
std::unordered_map; group order is irrelevant because the result below is
sorted and deduplicated). -/
def addToGroups : List (Coord3 × List Nat) → Coord3 → Nat → List (Coord3 × List Nat)
  | [], p, i => [(p, [i])]
  | (q, is) :: rest, p, i =>
      if q = p then (q, is ++ [i]) :: rest else (q, is) :: addToGroups rest p i

/-- First pass of TopologyRebuilder::processRefinementActions: group the indices
of mask == 2 voxels by their parent coordinate. -/
def siblingGroups (lut : List Coord3) (mask : List Nat) : List (Coord3 × List Nat) :=
  (List.range lut.length).foldl
    (fun gs i =>
      if mask.getD i 0 = 2 then addToGroups gs (parentCoord (lut.getD i ⟨0,0,0⟩)) i
      else gs)
    []

/-- TopologyRebuilder::processRefinementActions (TopologyRebuilder.cpp, lines
94-185).  Pass 1 groups coarsen-marked voxels by parent and emits the parent for
complete 8-sibling groups, the voxels themselves for incomplete groups, marking
all of them processed.  Pass 2 walks the remaining indices: action 1 emits the 8
children; the action 2 branch is unreachable (every mask == 2 index was already
processed in pass 1; in the source this dead branch reads an undeclared variable
named coord, rendered here as the current voxel); any other action emits
nothing, i.e. voxels with action byte 0 are dropped.  The result is sorted
lexicographically and adjacent duplicates are erased. -/
def processRefinementActions (lut : List Coord3) (mask : List Nat) : List Coord3 :=
  let gs := siblingGroups lut mask
  let coarsenCoords :=
    (gs.map (fun g =>
      if g.2.length = 8 then [g.1]
      else g.2.map (fun i => lut.getD i ⟨0,0,0⟩))).flatten
  let processed := (gs.map Prod.snd).flatten
  let passTwo :=
    ((List.range lut.length).map (fun i =>
      if processed.contains i then []
      else if mask.getD i 0 = 1 then childCoords (lut.getD i ⟨0,0,0⟩)
      else if mask.getD i 0 = 2 then [parentCoord (lut.getD i ⟨0,0,0⟩)]
      else [])).flatten
  dedupAdj (List.insertionSort coordLe (coarsenCoords ++ passTwo))

end TopologyRebuilder

/-- C1: the claim requires every voxel with action byte 0 to appear unchanged in
the rebuilt coordinate list.  On oldLUT = [(0,0,0), (3,3,3)] with mask = [0, 1]
the code emits exactly the 8 children of the refined voxel (3,3,3) and drops the
unmarked voxel (0,0,0): the keep branch for action 0 is missing from the second
pass of processRefinementActions. -/
theorem c1_unmarked_voxel_dropped :
    TopologyRebuilder.processRefinementActions [⟨0,0,0⟩, ⟨3,3,3⟩] [0, 1] =
      [⟨6,6,6⟩, ⟨6,6,7⟩, ⟨6,7,6⟩, ⟨6,7,7⟩, ⟨7,6,6⟩, ⟨7,6,7⟩, ⟨7,7,6⟩, ⟨7,7,7⟩] ∧
    (⟨0,0,0⟩ : Coord3) ∉
      TopologyRebuilder.processRefinementActions [⟨0,0,0⟩, ⟨3,3,3⟩] [0, 1] := by
  refine ⟨by decide, by decide⟩

namespace ShaderGenerator

/-- Member names of GraphExecutor::StencilPushConstants
(include/graph/GraphExecutor.hpp, lines 31-37), the struct the executor pushes
for every stencil dispatch, in declaration order. -/
def stencilPushConstantMembers : List String :=
  ["gridAddr", "bdaTableAddr", "activeVoxelCount", "neighborRadius", "dt"]

/-- ShaderGenerator::generatePushConstants (ShaderGenerator.cpp, lines 43-61):
the exact text emitted for the push-constant block, parameterised by the field
names of the registry snapshot (iteration order of the std::unordered_map). -/
def generatePushConstants (fieldNames : List String) : String :=
  "// --- Push Constants ---\n" ++
  "layout(push_constant, std430) uniform PC \x7b\n" ++
  "    uint64_t gridAddr;           // NanoVDB grid device address\n" ++
  "    uint64_t bdaTableAddr;       // Field BDA table address\n" ++
  "    uint32_t activeVoxelCount;   // Total active voxels\n" ++
  "    uint32_t neighborRadius;     // For accessing neighbor voxels\n" ++
  String.join (fieldNames.map (fun n =>
    "    uint64_t field_" ++ n ++ "_addr;  // Field \x27" ++ n ++ "\x27 address\n")) ++
  "\x7d pc;\n\n"

end ShaderGenerator

/-- C8: the claim requires the generated push-constant block to contain a member
dt of type f32 before the per-field addresses, and the executor indeed pushes a
StencilPushConstants struct ending in float dt.  But for the registry snapshot
with the single field density, the text emitted by generatePushConstants does
not even contain the two-character sequence dt: the block is
(gridAddr, bdaTableAddr, activeVoxelCount, neighborRadius, field addresses)
with no dt member, so the pushed struct and the shader block disagree. -/
theorem c8_push_constant_block_missing_dt :
    "dt" ∈ ShaderGenerator.stencilPushConstantMembers ∧
    ¬ ("dt".toList <:+: (ShaderGenerator.generatePushConstants ["density"]).toList) := by
  refine ⟨by decide, by decide⟩

namespace PipelineCache

/-- Leading 8 characters of the hex hash string (hash.substr(0, 8)). -/
def shortHash (hash : String) : String :=
  String.mk (hash.toList.take 8)

/-- PipelineCache::getCachePath: filename stencilname_shorthash.spv inside the
cache directory. -/
def getCachePath (stencilName hash : String) : String :=
  stencilName ++ "_" ++ shortHash hash ++ ".spv"

/-- The cache directory, modelled as an association list from file path to file
content; a cached SPIR-V file is modelled as the list of its 32-bit words (the
byte size on disk is 4 times the word count). -/
def fsWrite : List (String × List Nat) → String → List Nat → List (String × List Nat)
  | [], p, c => [(p, c)]
  | (q, d) :: rest, p, c =>
      if q = p then (q, c) :: rest else (q, d) :: fsWrite rest p c

/-- PipelineCache::save (PipelineCache.cpp, lines 46-68).  The content hash of
the GLSL source is computed by the external openssl SHA-256, passed here as the
parameter H (a function from source text to 64-hex-char digest).  The file
written at stencilname_shorthash.spv holds exactly the SPIR-V words: no full
hash, and no header of any kind, is stored in the file. -/
def save (H : String → String) (fs : List (String × List Nat))
    (stencilName glslSource : String) (spirv : List Nat) : List (String × List Nat) :=
  fsWrite fs (getCachePath stencilName (H glslSource)) spirv

/-- PipelineCache::load (PipelineCache.cpp, lines 70-105).  Recomputes the hash
of the presented source, opens the file at the derived short-hash path if it
exists, checks only that the byte size is a multiple of 4 (always true in the
word-level model) and returns the whole content as the bytecode; nothing inside
the file is compared against the full hash of the presented source. -/
def load (H : String → String) (fs : List (String × List Nat))
    (stencilName glslSource : String) : List Nat :=
  match fs.lookup (getCachePath stencilName (H glslSource)) with
  | none => []
  | some ws => if (4 * ws.length) % 4 = 0 then ws else []

end PipelineCache

/-- C7 amended: on a short-hash collision under the same stencil name the cached
file holds only the bytecode of the first source (no full hash is stored), and a
lookup with the second source returns that stale bytecode instead of rejecting
the mismatched body. -/
theorem c7_collision_serves_stale_bytecode
    (H : String → String) (fs : List (String × List Nat))
    (stencilName s1 s2 : String) (spirv : List Nat)
    (hfull : H s1 ≠ H s2)
    (hshort : PipelineCache.shortHash (H s1) = PipelineCache.shortHash (H s2)) :
    (PipelineCache.save H fs stencilName s1 spirv).lookup
        (PipelineCache.getCachePath stencilName (H s1)) = some spirv ∧
    PipelineCache.load H (PipelineCache.save H fs stencilName s1 spirv) stencilName s2
      = spirv := by
  have hpath : PipelineCache.getCachePath stencilName (H s2)
      = PipelineCache.getCachePath stencilName (H s1) := by
    unfold PipelineCache.getCachePath
    rw [hshort]
  have hlk : ∀ gs : List (String × List Nat), ∀ p : String,
      (PipelineCache.fsWrite gs p spirv).lookup p = some spirv := by
    intro gs
    induction gs with
    | nil =>
        intro p
        simp [PipelineCache.fsWrite]
    | cons hd tl ih =>
        intro p
        by_cases h : hd.1 = p
        · simp [PipelineCache.fsWrite, h, List.lookup]
        · have hb : (p == hd.1) = false :=
            beq_eq_false_iff_ne.mpr (fun he => h he.symm)
          simp [PipelineCache.fsWrite, if_neg h, List.lookup, hb, ih p]
  constructor
  · exact hlk fs _
  · unfold PipelineCache.load PipelineCache.save
    rw [hpath, hlk fs _]
    simp

/-- Toy stand-in for the external SHA-256 hex digest, exhibiting two sources
whose digests differ but agree on the leading 8 characters. -/
def toyHash : String → String := fun s =>
  if s = "srcA" then "aaaaaaaa0000000000000000000000000000000000000000000000000000000a"
  else if s = "srcB" then "aaaaaaaa0000000000000000000000000000000000000000000000000000000b"
  else "ffffffffffffffffffffffffffffffffffffffffffffffffffffffffffffffff"

/-- C7 counterexample: the claim requires the cached file to carry the full hash
and the colliding lookup to return no bytecode; with two sources whose digests
collide on the first 8 hex characters, the lookup with the second source
returns the first source's bytecode [1, 2, 3], not the empty result. -/
theorem c7_claim_fails_on_short_collision :
    toyHash "srcA" ≠ toyHash "srcB" ∧
    PipelineCache.shortHash (toyHash "srcA") = PipelineCache.shortHash (toyHash "srcB") ∧
    PipelineCache.load toyHash
        (PipelineCache.save toyHash [] "sten" "srcA" [1, 2, 3]) "sten" "srcB"
      = [1, 2, 3] ∧
    [1, 2, 3] ≠ ([] : List Nat) := by
  refine ⟨by decide, by decide, by decide, by decide⟩

/-- Witness for c7_collision_serves_stale_bytecode at the toy hash and sources
srcA, srcB with bytecode [7, 8]. -/
theorem c7_collision_serves_stale_bytecode_witness :
    (PipelineCache.save toyHash [] "sten" "srcA" [7, 8]).lookup
        (PipelineCache.getCachePath "sten" (toyHash "srcA")) = some [7, 8] ∧
    PipelineCache.load toyHash (PipelineCache.save toyHash [] "sten" "srcA" [7, 8]) "sten" "srcB"
      = [7, 8] :=
  c7_collision_serves_stale_bytecode toyHash [] "sten" "srcA" "srcB" [7, 8]
    (by decide) (by decide)

namespace FieldRegistry

/-- The subset of vk::Format values the registry supports, plus a constructor
standing for every other format value (the switch's default case). -/
inductive VkFormat
  | r32Sfloat
  | r32Sint
  | r32g32Sfloat
  | r32g32Sint
  | r32g32b32Sfloat
  | r32g32b32Sint
  | r32g32b32a32Sfloat
  | r32g32b32a32Sint
  | unsupported
deriving DecidableEq

/-- Element size switch of FieldRegistry::registerField (FieldRegistry.cpp,
lines 81-101); none means the default case, which throws UnsupportedFormat. -/
def elementSizeOf : VkFormat → Option Nat
  | .r32Sfloat => some 4
  | .r32Sint => some 4
  | .r32g32Sfloat => some 8
  | .r32g32Sint => some 8
  | .r32g32b32Sfloat => some 12
  | .r32g32b32Sint => some 12
  | .r32g32b32a32Sfloat => some 16
  | .r32g32b32a32Sint => some 16
  | .unsupported => none

/-- Embedding of field::FieldDesc (FieldRegistry.hpp). -/
structure FieldDesc where
  name : String
  format : VkFormat
  elementSize : Nat
  descriptorIndex : Nat
  deviceAddress : Nat
  bufferSize : Nat
deriving DecidableEq

/-- FieldRegistry::MAX_FIELDS. -/
def MAX_FIELDS : Nat := 256

/-- Registry state: m_activeVoxelCount, the contents of m_fields kept in
registration order, m_nextDescriptorIndex, and the mapped BDA table (MAX_FIELDS
64-bit entries, zero-initialised by the constructor's memset). -/
structure RegState where
  activeVoxelCount : Nat
  fields : List FieldDesc
  nextDescriptorIndex : Nat
  bdaTable : List Nat
deriving DecidableEq

/-- Registry state right after the FieldRegistry constructor. -/
def initState (n : Nat) : RegState :=
  ⟨n, [], 0, List.replicate MAX_FIELDS 0⟩

/-- The three exceptions registerField can throw. -/
inductive RegError
  | duplicateField
  | capacityExceeded
  | unsupportedFormat
deriving DecidableEq

/-- One registerField call: the name and format arguments, plus the device
address that the external allocator returns for the freshly created buffer. -/
structure RegRequest where
  name : String
  format : VkFormat
  deviceAddress : Nat
deriving DecidableEq

/-- m_fields.count(name) > 0. -/
def hasFieldNamed (s : RegState) (n : String) : Bool :=
  s.fields.any (fun f => f.name = n)

/-- FieldRegistry::registerField (FieldRegistry.cpp, lines 65-145).  Returns the
thrown error or the stored descriptor, paired with the registry state after the
call; every throw happens before any mutation, so the state at a throw is the
input state.  The zero-fill / fill-kernel initialisation only touches the new
buffer's GPU contents, not the registry bookkeeping modelled here. -/
def registerField (s : RegState) (r : RegRequest) :
    (Except RegError FieldDesc) × RegState :=
  if hasFieldNamed s r.name then (.error .duplicateField, s)
  else if MAX_FIELDS ≤ s.nextDescriptorIndex then (.error .capacityExceeded, s)
  else
    match elementSizeOf r.format with
    | none => (.error .unsupportedFormat, s)
    | some esz =>
        let desc : FieldDesc :=
          ⟨r.name, r.format, esz, s.nextDescriptorIndex, r.deviceAddress,
           s.activeVoxelCount * esz⟩
        (.ok desc,
         ⟨s.activeVoxelCount, s.fields ++ [desc], s.nextDescriptorIndex + 1,
          s.bdaTable.set s.nextDescriptorIndex r.deviceAddress⟩)

/-- A sequence of registerField calls (return values discarded). -/
def runRequests (s : RegState) : List RegRequest → RegState
  | [] => s
  | r :: rest => runRequests (registerField s r).2 rest

end FieldRegistry

namespace FieldRegistry

/-- Registry invariant: the next descriptor index equals the number of
registered fields, the mapped table has MAX_FIELDS entries, and every
registered field's descriptor index is its registration rank with the table
entry at that index holding the allocator-returned device address. -/
def GoodState (s : RegState) : Prop :=
  s.nextDescriptorIndex = s.fields.length ∧
  s.bdaTable.length = MAX_FIELDS ∧
  ∀ i : Nat, ∀ f : FieldDesc, s.fields[i]? = some f →
    f.descriptorIndex = i ∧ s.bdaTable[i]? = some f.deviceAddress

theorem goodState_init (n : Nat) : GoodState (initState n) := by
  refine ⟨rfl, by simp [initState, MAX_FIELDS], ?_⟩
  intro i f hf
  simp [initState] at hf

theorem registerField_preserves (s : RegState) (r : RegRequest) (hg : GoodState s) :
    GoodState (registerField s r).2 ∧
    (∃ t, (registerField s r).2.fields = s.fields ++ t) ∧
    (∀ i : Nat, i < s.fields.length →
      (registerField s r).2.bdaTable[i]? = s.bdaTable[i]?) := by
  obtain ⟨hnext, htlen, hidx⟩ := hg
  by_cases h1 : hasFieldNamed s r.name = true
  · have hs : (registerField s r).2 = s := by
      unfold registerField
      rw [if_pos h1]
    rw [hs]
    exact ⟨⟨hnext, htlen, hidx⟩, ⟨[], by simp⟩, fun i _ => rfl⟩
  · by_cases h2 : MAX_FIELDS ≤ s.nextDescriptorIndex
    · have hs : (registerField s r).2 = s := by
        unfold registerField
        rw [if_neg h1, if_pos h2]
      rw [hs]
      exact ⟨⟨hnext, htlen, hidx⟩, ⟨[], by simp⟩, fun i _ => rfl⟩
    · cases hesz : elementSizeOf r.format with
      | none =>
        have hs : (registerField s r).2 = s := by
          unfold registerField
          rw [if_neg h1, if_neg h2, hesz]
        rw [hs]
        exact ⟨⟨hnext, htlen, hidx⟩, ⟨[], by simp⟩, fun i _ => rfl⟩
      | some esz =>
        have hs : (registerField s r).2 =
            ⟨s.activeVoxelCount,
             s.fields ++ [⟨r.name, r.format, esz, s.nextDescriptorIndex,
                           r.deviceAddress, s.activeVoxelCount * esz⟩],
             s.nextDescriptorIndex + 1,
             s.bdaTable.set s.nextDescriptorIndex r.deviceAddress⟩ := by
          unfold registerField
          rw [if_neg h1, if_neg h2, hesz]
        rw [hs]
        have hlt : s.fields.length < s.bdaTable.length := by
          rw [htlen, ← hnext]
          exact lt_of_not_le h2
        refine ⟨⟨?_, ?_, ?_⟩, ⟨_, rfl⟩, ?_⟩
        · simp [hnext]
        · simp [htlen]
        · intro i f hf
          simp only at hf ⊢
          by_cases hi : i < s.fields.length
          · rw [List.getElem?_append_left hi] at hf
            obtain ⟨hfi, hti⟩ := hidx i f hf
            refine ⟨hfi, ?_⟩
            rw [List.getElem?_set_ne (by omega)]
            exact hti
          · have hile : s.fields.length ≤ i := Nat.le_of_not_lt hi
            rcases Nat.eq_or_lt_of_le hile with heq | hgt
            · subst heq
              rw [List.getElem?_concat_length] at hf
              injection hf with hf
              subst hf
              refine ⟨hnext, ?_⟩
              rw [← hnext, List.getElem?_set_self (by omega)]
            · rw [List.getElem?_append_right hile] at hf
              have hsm : (i - s.fields.length) < 1 := by
                rw [List.getElem?_eq_some] at hf
                obtain ⟨hb, -⟩ := hf
                simpa using hb
              omega
        · intro i hilt
          simp only
          rw [List.getElem?_set_ne (by omega)]

theorem runRequests_preserves (reqs : List RegRequest) (s : RegState) (hg : GoodState s) :
    GoodState (runRequests s reqs) ∧
    (∃ t, (runRequests s reqs).fields = s.fields ++ t) ∧
    (∀ i : Nat, i < s.fields.length →
      (runRequests s reqs).bdaTable[i]? = s.bdaTable[i]?) := by
  induction reqs generalizing s with
  | nil => exact ⟨hg, ⟨[], by simp [runRequests]⟩, fun i _ => rfl⟩
  | cons r rest ih =>
    obtain ⟨hg1, ⟨t1, ht1⟩, htab1⟩ := registerField_preserves s r hg
    obtain ⟨hg2, ⟨t2, ht2⟩, htab2⟩ := ih (registerField s r).2 hg1
    refine ⟨hg2, ⟨t1 ++ t2, ?_⟩, ?_⟩
    · show (runRequests (registerField s r).2 rest).fields = _
      rw [ht2, ht1, List.append_assoc]
    · intro i hi
      show (runRequests (registerField s r).2 rest).bdaTable[i]? = _
      rw [htab2 i ?_, htab1 i hi]
      rw [ht1, List.length_append]
      omega

theorem runRequests_append (s : RegState) (reqs more : List RegRequest) :
    runRequests s (reqs ++ more) = runRequests (runRequests s reqs) more := by
  induction reqs generalizing s with
  | nil => rfl
  | cons r rest ih => exact ih (registerField s r).2

end FieldRegistry

/-- C9: after any sequence of registerField calls, the field stored at
registration rank i has descriptor index i (consecutive, assigned in
registration order, never reused), the BDA table entry at that index is the
device address the allocator returned for the field's buffer, and both the
field record and its table entry are unchanged by any further sequence of
registerField calls, i.e. until the registry is destroyed. -/
theorem c9_descriptor_index_and_table_stable
    (n : Nat) (reqs more : List FieldRegistry.RegRequest)
    (i : Nat) (f : FieldRegistry.FieldDesc)
    (h : (FieldRegistry.runRequests (FieldRegistry.initState n) reqs).fields[i]? = some f) :
    f.descriptorIndex = i ∧
    (FieldRegistry.runRequests (FieldRegistry.initState n) reqs).bdaTable[i]?
      = some f.deviceAddress ∧
    (FieldRegistry.runRequests (FieldRegistry.initState n) (reqs ++ more)).fields[i]?
      = some f ∧
    (FieldRegistry.runRequests (FieldRegistry.initState n) (reqs ++ more)).bdaTable[i]?
      = some f.deviceAddress := by
  obtain ⟨hg, -, -⟩ :=
    FieldRegistry.runRequests_preserves reqs (FieldRegistry.initState n)
      (FieldRegistry.goodState_init n)
  obtain ⟨hfi, hti⟩ := hg.2.2 i f h
  have hlen : i < (FieldRegistry.runRequests (FieldRegistry.initState n) reqs).fields.length := by
    rw [List.getElem?_eq_some] at h
    exact h.1
  obtain ⟨-, ⟨t, ht⟩, htab⟩ :=
    FieldRegistry.runRequests_preserves more
      (FieldRegistry.runRequests (FieldRegistry.initState n) reqs) hg
  refine ⟨hfi, hti, ?_, ?_⟩
  · rw [FieldRegistry.runRequests_append, ht, List.getElem?_append_left hlen]
    exact h
  · rw [FieldRegistry.runRequests_append, htab i hlen]
    exact hti

/-- Witness for c9_descriptor_index_and_table_stable: two fields registered,
then one more; the second field rho2 keeps descriptor index 1 and table entry
8192 throughout. -/
theorem c9_descriptor_index_and_table_stable_witness :
    (⟨"vel", .r32g32b32Sfloat, 12, 1, 8192, 96⟩ : FieldRegistry.FieldDesc).descriptorIndex = 1 ∧
    (FieldRegistry.runRequests (FieldRegistry.initState 8)
      [⟨"rho", .r32Sfloat, 4096⟩, ⟨"vel", .r32g32b32Sfloat, 8192⟩]).bdaTable[1]?
      = some (⟨"vel", .r32g32b32Sfloat, 12, 1, 8192, 96⟩ : FieldRegistry.FieldDesc).deviceAddress ∧
    (FieldRegistry.runRequests (FieldRegistry.initState 8)
      ([⟨"rho", .r32Sfloat, 4096⟩, ⟨"vel", .r32g32b32Sfloat, 8192⟩] ++
       [⟨"p", .r32Sfloat, 12288⟩])).fields[1]?
      = some ⟨"vel", .r32g32b32Sfloat, 12, 1, 8192, 96⟩ ∧
    (FieldRegistry.runRequests (FieldRegistry.initState 8)
      ([⟨"rho", .r32Sfloat, 4096⟩, ⟨"vel", .r32g32b32Sfloat, 8192⟩] ++
       [⟨"p", .r32Sfloat, 12288⟩])).bdaTable[1]?
      = some (⟨"vel", .r32g32b32Sfloat, 12, 1, 8192, 96⟩ : FieldRegistry.FieldDesc).deviceAddress :=
  c9_descriptor_index_and_table_stable 8
    [⟨"rho", .r32Sfloat, 4096⟩, ⟨"vel", .r32g32b32Sfloat, 8192⟩]
    [⟨"p", .r32Sfloat, 12288⟩] 1 ⟨"vel", .r32g32b32Sfloat, 12, 1, 8192, 96⟩ (by decide)

/-- C10 amended: whenever registerField fails, the registry is left exactly as
it was (no field added, descriptor index not advanced, no table entry written),
and a subsequent registerField with a fresh name and a supported format
succeeds with the next consecutive descriptor index provided fewer than
MAX_FIELDS fields are registered (after a CapacityExceeded failure the registry
is still full, so that subsequent call fails as well). -/
theorem c10_failed_register_leaves_registry
    (s : FieldRegistry.RegState) (r : FieldRegistry.RegRequest)
    (e : FieldRegistry.RegError)
    (hfail : (FieldRegistry.registerField s r).1 = .error e) :
    (FieldRegistry.registerField s r).2 = s ∧
    (∀ r2 : FieldRegistry.RegRequest, ∀ esz : Nat,
      FieldRegistry.hasFieldNamed s r2.name = false →
      FieldRegistry.elementSizeOf r2.format = some esz →
      s.nextDescriptorIndex < FieldRegistry.MAX_FIELDS →
      (FieldRegistry.registerField ((FieldRegistry.registerField s r).2) r2).1
        = .ok ⟨r2.name, r2.format, esz, s.nextDescriptorIndex, r2.deviceAddress,
               s.activeVoxelCount * esz⟩) := by
  have hstate : (FieldRegistry.registerField s r).2 = s := by
    unfold FieldRegistry.registerField at hfail ⊢
    by_cases h1 : FieldRegistry.hasFieldNamed s r.name = true
    · rw [if_pos h1]
    · rw [if_neg h1]
      by_cases h2 : FieldRegistry.MAX_FIELDS ≤ s.nextDescriptorIndex
      · rw [if_pos h2]
      · rw [if_neg h1, if_neg h2] at hfail
        rw [if_neg h2]
        cases hesz : FieldRegistry.elementSizeOf r.format with
        | none => rfl
        | some esz =>
            rw [hesz] at hfail
            exact absurd hfail (by simp)
  refine ⟨hstate, ?_⟩
  intro r2 esz hfresh hsupp hcap
  rw [hstate]
  unfold FieldRegistry.registerField
  rw [hfresh]
  rw [if_neg (by simp), if_neg (Nat.not_le.mpr hcap), hsupp]

/-- Witness for c10_failed_register_leaves_registry: a duplicate registration of
rho fails, leaves the one-field registry unchanged, and a following valid
registration of vel succeeds with descriptor index 1. -/
theorem c10_failed_register_leaves_registry_witness :
    (FieldRegistry.registerField
      (FieldRegistry.runRequests (FieldRegistry.initState 8) [⟨"rho", .r32Sfloat, 4096⟩])
      ⟨"rho", .r32g32Sfloat, 11111⟩).2
      = FieldRegistry.runRequests (FieldRegistry.initState 8) [⟨"rho", .r32Sfloat, 4096⟩] ∧
    (FieldRegistry.registerField
      ((FieldRegistry.registerField
        (FieldRegistry.runRequests (FieldRegistry.initState 8) [⟨"rho", .r32Sfloat, 4096⟩])
        ⟨"rho", .r32g32Sfloat, 11111⟩).2)
      ⟨"vel", .r32g32b32Sfloat, 8192⟩).1
      = .ok ⟨"vel", .r32g32b32Sfloat, 12,
             (FieldRegistry.runRequests (FieldRegistry.initState 8)
               [⟨"rho", .r32Sfloat, 4096⟩]).nextDescriptorIndex, 8192,
             (FieldRegistry.runRequests (FieldRegistry.initState 8)
               [⟨"rho", .r32Sfloat, 4096⟩]).activeVoxelCount * 12⟩ := by
  have h := c10_failed_register_leaves_registry
    (FieldRegistry.runRequests (FieldRegistry.initState 8) [⟨"rho", .r32Sfloat, 4096⟩])
    ⟨"rho", .r32g32Sfloat, 11111⟩ .duplicateField (by rfl)
  exact ⟨h.1, h.2 ⟨"vel", .r32g32b32Sfloat, 8192⟩ 12 (by decide) (by decide) (by decide)⟩

namespace FieldRegistry

/-- Name of the i-th field in the capacity scenario: the string of i letters a
(names of pairwise distinct lengths, hence pairwise distinct). -/
def mkName (i : Nat) : String :=
  String.mk (List.replicate i 'a')

/-- Registry after registering k fields named mkName 0, ..., mkName (k-1), all
of the supported scalar float format. -/
def buildK : Nat → RegState
  | 0 => initState 64
  | k + 1 => (registerField (buildK k) ⟨mkName k, .r32Sfloat, k + 1⟩).2

theorem mkName_inj (i j : Nat) (h : mkName i = mkName j) : i = j := by
  unfold mkName at h
  have hl := congrArg (fun s => s.toList.length) h
  simpa using hl

theorem buildK_spec (k : Nat) (hk : k ≤ MAX_FIELDS) :
    (buildK k).nextDescriptorIndex = k ∧
    (∀ f : FieldDesc, f ∈ (buildK k).fields → ∃ i, i < k ∧ f.name = mkName i) := by
  induction k with
  | zero => exact ⟨rfl, fun f hf => absurd hf (by simp [buildK, initState])⟩
  | succ k ih =>
    obtain ⟨hnext, hnames⟩ := ih (Nat.le_of_succ_le hk)
    have hfresh : hasFieldNamed (buildK k) (mkName k) = false := by
      rw [← Bool.not_eq_true]
      unfold hasFieldNamed
      rw [List.any_eq_true]
      rintro ⟨f, hf, hname⟩
      obtain ⟨i, hik, hni⟩ := hnames f hf
      rw [decide_eq_true_iff] at hname
      have : i = k := mkName_inj i k (by rw [← hni, hname])
      omega
    have hcap : ¬ MAX_FIELDS ≤ (buildK k).nextDescriptorIndex := by
      rw [hnext]
      unfold MAX_FIELDS at hk ⊢
      omega
    have hs : buildK (k + 1) =
        ⟨(buildK k).activeVoxelCount,
         (buildK k).fields ++ [⟨mkName k, .r32Sfloat, 4, (buildK k).nextDescriptorIndex, k + 1,
                                (buildK k).activeVoxelCount * 4⟩],
         (buildK k).nextDescriptorIndex + 1,
         (buildK k).bdaTable.set (buildK k).nextDescriptorIndex (k + 1)⟩ := by
      show (registerField (buildK k) ⟨mkName k, .r32Sfloat, k + 1⟩).2 = _
      unfold registerField
      rw [hfresh]
      rw [if_neg Bool.false_ne_true, if_neg hcap]
      rfl
    refine ⟨?_, ?_⟩
    · rw [hs]
      simp [hnext]
    · intro f hf
      rw [hs] at hf
      simp only [List.mem_append, List.mem_singleton] at hf
      rcases hf with hf | hf
      · obtain ⟨i, hik, hni⟩ := hnames f hf
        exact ⟨i, by omega, hni⟩
      · subst hf
        exact ⟨k, by omega, rfl⟩

theorem hasFieldNamed_buildK_full_eq_false (nm : String)
    (hna : 'a' ∉ nm.toList) (hne : nm.toList ≠ []) :
    hasFieldNamed (buildK 256) nm = false := by
  obtain ⟨-, hnames⟩ := buildK_spec 256 (Nat.le_refl _)
  rw [← Bool.not_eq_true]
  unfold hasFieldNamed
  rw [List.any_eq_true]
  rintro ⟨f, hf, hname⟩
  obtain ⟨i, hik, hni⟩ := hnames f hf
  rw [decide_eq_true_iff] at hname
  have hrep : nm.toList = List.replicate i 'a' := by
    rw [← hname, hni]
    rfl
  cases i with
  | zero =>
      rw [hrep] at hne
      exact hne rfl
  | succ j =>
      apply hna
      rw [hrep]
      exact List.mem_replicate.mpr ⟨by omega, rfl⟩

end FieldRegistry

/-- C10 counterexample: after registering 256 fields (mkName 0 ... mkName 255),
a registerField call with the fresh valid name z fails with CapacityExceeded
and, contrary to the claim, the subsequent registerField with the fresh valid
name zz does not succeed: it fails with CapacityExceeded too. -/
theorem c10_capacity_failure_not_recoverable :
    (FieldRegistry.registerField (FieldRegistry.buildK 256)
        ⟨"z", .r32Sfloat, 999⟩).1 = .error .capacityExceeded ∧
    (FieldRegistry.registerField
        ((FieldRegistry.registerField (FieldRegistry.buildK 256)
            ⟨"z", .r32Sfloat, 999⟩).2)
        ⟨"zz", .r32Sfloat, 1000⟩).1 = .error .capacityExceeded := by
  obtain ⟨hnext, -⟩ := FieldRegistry.buildK_spec 256 (Nat.le_refl _)
  have hz := FieldRegistry.hasFieldNamed_buildK_full_eq_false "z" (by decide) (by decide)
  have hzz := FieldRegistry.hasFieldNamed_buildK_full_eq_false "zz" (by decide) (by decide)
  have hfull : FieldRegistry.MAX_FIELDS ≤ (FieldRegistry.buildK 256).nextDescriptorIndex := by
    rw [hnext]
    exact Nat.le_refl _
  have h1 : FieldRegistry.registerField (FieldRegistry.buildK 256) ⟨"z", .r32Sfloat, 999⟩
      = (.error .capacityExceeded, FieldRegistry.buildK 256) := by
    unfold FieldRegistry.registerField
    rw [hz, if_neg Bool.false_ne_true, if_pos hfull]
  have h2 : FieldRegistry.registerField (FieldRegistry.buildK 256) ⟨"zz", .r32Sfloat, 1000⟩
      = (.error .capacityExceeded, FieldRegistry.buildK 256) := by
    unfold FieldRegistry.registerField
    rw [hzz, if_neg Bool.false_ne_true, if_pos hfull]
  rw [h1]
  exact ⟨rfl, by rw [h2]⟩

namespace DependencyGraph

/-- Embedding of DependencyGraph::Node (name, reads, writes); the dependencies
vector is recomputed from scratch inside computeDependencies and is modelled by
the function dependenciesOf below. -/
structure Node where
  name : String
  reads : List String
  writes : List String
deriving DecidableEq

/-- Default node (used only by List.getD in closed evaluations). -/
instance : Inhabited Node := ⟨⟨"", [], []⟩⟩

/-- Lexicographic comparison of character lists by code point, the model of the
std::string operator< that orders the std::map m_nodes (identical to the byte
comparison for the ASCII names concerned). -/
def charListLt : List Char → List Char → Bool
  | [], [] => false
  | [], _ :: _ => true
  | _ :: _, [] => false
  | a :: as, b :: bs =>
      if a.toNat < b.toNat then true
      else if b.toNat < a.toNat then false
      else charListLt as bs

def strLt (a b : String) : Bool :=
  charListLt a.toList b.toList

/-- Insert a node into the name-sorted association list that models the
std::map m_nodes (addNode rejects duplicates before inserting, so only
distinct keys reach this function). -/
def insertNode : List Node → Node → List Node
  | [], n => [n]
  | m :: rest, n => if strLt n.name m.name then n :: m :: rest else m :: insertNode rest n

/-- m_nodes.count(name) > 0. -/
def hasNodeNamed (ns : List Node) (nm : String) : Bool :=
  ns.any (fun m => m.name = nm)

/-- The errors the graph operations can raise: the addNode duplicate throw, the
buildSchedule cycle throw, the std::out_of_range thrown by map::at inside
hasCycle, and an out-of-fuel marker that bounded recursion can return (never
reached with the fuel used below). -/
inductive GraphError
  | duplicateNode
  | cycleDetected
  | mapAtOutOfRange
  | outOfFuel
deriving DecidableEq

/-- DependencyGraph state: the name-sorted node map m_nodes and the adjacency
map m_adjacencyList (name to dependents).  addNode never touches the adjacency
map: it is only populated inside buildSchedule via computeDependencies. -/
structure GraphState where
  nodes : List Node
  adjacency : List (String × List String)
deriving DecidableEq

def emptyGraph : GraphState := ⟨[], []⟩

/-- DependencyGraph::addNode (DependencyGraph.cpp, lines 11-31). -/
def addNode (g : GraphState) (nm : String) (rs ws : List String) :
    Except GraphError GraphState :=
  if hasNodeNamed g.nodes nm then .error .duplicateNode
  else .ok ⟨insertNode g.nodes ⟨nm, rs, ws⟩, g.adjacency⟩

/-- Build a graph from a list of addNode requests (name, reads, writes). -/
def mkGraphGo (g : GraphState) :
    List (String × List String × List String) → Except GraphError GraphState
  | [] => .ok g
  | r :: rest =>
      match addNode g r.1 r.2.1 r.2.2 with
      | .error e => .error e
      | .ok g2 => mkGraphGo g2 rest

def mkGraph (rs : List (String × List String × List String)) :
    Except GraphError GraphState :=
  mkGraphGo emptyGraph rs

/-- Dependency list of node v computed by the first half of
DependencyGraph::computeDependencies (lines 43-60): nodes u (in map order) that
write a field v reads, deduplicated, in read-field-major order. -/
def dependenciesOf (nodes : List Node) (v : Node) : List String :=
  v.reads.foldl
    (fun acc rf =>
      nodes.foldl
        (fun acc u =>
          if u.name = v.name then acc
          else if u.writes.contains rf then
            (if acc.contains u.name then acc else acc ++ [u.name])
          else acc)
        acc)
    []

/-- Body of the inner loop of the second half of computeDependencies: skip the
node itself, and append a dependent that reads the written field unless it is
already recorded. -/
def adjStep (uname wf : String) (acc : List String) (v : Node) : List String :=
  if v.name = uname then acc
  else if v.reads.contains wf then
    (if acc.contains v.name then acc else acc ++ [v.name])
  else acc

/-- Adjacency (dependents) list of node u computed by the second half of
DependencyGraph::computeDependencies (lines 62-79): nodes v (in map order) that
read a field u writes, deduplicated, in write-field-major order. -/
def adjacencyOf (nodes : List Node) (u : Node) : List String :=
  u.writes.foldl (fun acc wf => nodes.foldl (adjStep u.name wf) acc) []

/-- uint32_t decrement with wrap-around (inDegree[dependent]-- in Kahn's loop). -/
def decWrapU32 (n : Nat) : Nat :=
  (n + 4294967295) % 4294967296

def lookupDeg (indeg : List (String × Nat)) (nm : String) : Nat :=
  (indeg.lookup nm).getD 0

def setDeg : List (String × Nat) → String → Nat → List (String × Nat)
  | [], nm, d => [(nm, d)]
  | (k, v) :: rest, nm, d =>
      if k = nm then (k, d) :: rest else (k, v) :: setDeg rest nm d

/-- Queue-processing loop of Kahn's algorithm in DependencyGraph::buildSchedule
(lines 110-125): pop the front, append it to the schedule, decrement the
in-degree of each dependent and enqueue the ones that reach zero.  The fuel
bounds the number of iterations; the caller passes enough for the loop to run
to completion. -/
def kahnLoop (adj : String → List String) :
    Nat → List String → List (String × Nat) → List String → List String
  | 0, _, _, sched => sched
  | _ + 1, [], _, sched => sched
  | fuel + 1, cur :: rest, indeg, sched =>
      let step :=
        (adj cur).foldl
          (fun (p : List String × List (String × Nat)) dep =>
            let d := decWrapU32 (lookupDeg p.2 dep)
            let indeg2 := setDeg p.2 dep d
            if d = 0 then (p.1 ++ [dep], indeg2) else (p.1, indeg2))
          (rest, indeg)
      kahnLoop adj fuel step.1 step.2 (sched ++ [cur])

/-- DependencyGraph::buildSchedule (DependencyGraph.cpp, lines 85-136).  It
first recomputes the dependencies, then computes the in-degree map (std::map,
so iterated in name order, which is the order of the sorted node list), seeds
the FIFO queue with the zero-in-degree nodes in that order, runs Kahn's loop,
and throws the cycle error when fewer than all nodes were scheduled.
m_adjacencyList[current] with operator[] defaults to an empty list, modelled by
the total function adj. -/
def buildSchedule (g : GraphState) : Except GraphError (List String) :=
  let nodes := g.nodes
  let indeg0 := nodes.map (fun v => (v.name, (dependenciesOf nodes v).length))
  let q0 := (indeg0.filter (fun p => p.2 = 0)).map Prod.fst
  let adj := fun nm =>
    match nodes.find? (fun u => u.name = nm) with
    | some u => adjacencyOf nodes u
    | none => []
  let sched := kahnLoop adj (nodes.length * nodes.length + nodes.length + 1) q0 indeg0 []
  if sched.length = nodes.length then .ok sched else .error .cycleDetected

def colorOf (cs : List (String × Nat)) (nm : String) : Nat :=
  (cs.lookup nm).getD 0

def setColor : List (String × Nat) → String → Nat → List (String × Nat)
  | [], nm, c => [(nm, c)]
  | (k, v) :: rest, nm, c =>
      if k = nm then (k, c) :: rest else (k, v) :: setColor rest nm c

/-- hasCycleDFS (DependencyGraph.cpp, lines 187-201): colour the node gray,
fetch its dependents with m_adjacencyList.at(node) - which throws
std::out_of_range when the node has no adjacency entry, modelled as the
mapAtOutOfRange error - recurse into white dependents, report a cycle on a gray
dependent, and colour the node black when the scan finishes. -/
def dfsGo (adj : List (String × List String)) :
    Nat → List (String × Nat) → String → Except GraphError (Bool × List (String × Nat))
  | 0, _, _ => .error .outOfFuel
  | fuel + 1, colors0, node =>
      let colors := setColor colors0 node 1
      match adj.lookup node with
      | none => .error .mapAtOutOfRange
      | some deps =>
          let r :=
            deps.foldl
              (fun (acc : Except GraphError (Bool × List (String × Nat))) dep =>
                match acc with
                | .error e => .error e
                | .ok (true, cs) => .ok (true, cs)
                | .ok (false, cs) =>
                    if colorOf cs dep = 1 then .ok (true, cs)
                    else if colorOf cs dep = 0 then dfsGo adj fuel cs dep
                    else .ok (false, cs))
              (.ok (false, colors))
          match r with
          | .error e => .error e
          | .ok (true, cs) => .ok (true, cs)
          | .ok (false, cs) => .ok (false, setColor cs node 2)

/-- DependencyGraph::hasCycle (DependencyGraph.cpp, lines 180-212): initialise
every node white (std::map iteration = name order), then run the colouring DFS
from every still-white node, returning true on the first cycle found.  The
member m_adjacencyList is passed as it is in the current state: addNode leaves
it empty, and only buildSchedule's computeDependencies ever fills it. -/
def hasCycle (g : GraphState) : Except GraphError Bool :=
  let init := g.nodes.map (fun n => (n.name, (0 : Nat)))
  let r :=
    g.nodes.foldl
      (fun (acc : Except GraphError (Bool × List (String × Nat))) n =>
        match acc with
        | .error e => .error e
        | .ok (true, cs) => .ok (true, cs)
        | .ok (false, cs) =>
            if colorOf cs n.name = 0 then dfsGo g.adjacency (g.nodes.length + 1) cs n.name
            else .ok (false, cs))
      (.ok (false, init))
  match r with
  | .error e => .error e
  | .ok (b, _) => .ok b

end DependencyGraph

/-- C3: the claim says hasCycle() returns true exactly when buildSchedule()
fails, the two agreeing on every graph.  On the acyclic chain A -> B -> C (the
repository's own test case Cycle detection - no cycle, which calls hasCycle()
right after the addNode calls), buildSchedule succeeds with the full schedule
[A, B, C], but hasCycle does not return false: its DFS calls
m_adjacencyList.at("A") on the empty adjacency map and throws
std::out_of_range.  The same happens after computeDependencies on any acyclic
graph, because some node always lacks an out-edge and hence an adjacency entry. -/
theorem c3_hasCycle_throws_where_buildSchedule_succeeds :
    DependencyGraph.mkGraph
        [("A", ([], ["x"])), ("B", (["x"], ["y"])), ("C", (["y"], ["z"]))]
      = .ok ⟨[⟨"A", [], ["x"]⟩, ⟨"B", ["x"], ["y"]⟩, ⟨"C", ["y"], ["z"]⟩], []⟩ ∧
    DependencyGraph.buildSchedule
        ⟨[⟨"A", [], ["x"]⟩, ⟨"B", ["x"], ["y"]⟩, ⟨"C", ["y"], ["z"]⟩], []⟩
      = .ok ["A", "B", "C"] ∧
    DependencyGraph.hasCycle
        ⟨[⟨"A", [], ["x"]⟩, ⟨"B", ["x"], ["y"]⟩, ⟨"C", ["y"], ["z"]⟩], []⟩
      = .error .mapAtOutOfRange := by
  refine ⟨by rfl, by rfl, by rfl⟩

/-- C6 counterexample: the claim says the zero-in-degree queue is tie-broken by
insertion order, so inserting b before a (two independent nodes) should yield
the schedule [b, a].  The code keeps m_nodes in a std::map, so the queue is
seeded in lexicographic name order: both insertion orders produce the same
graph state and the schedule [a, b], not [b, a]. -/
theorem c6_tie_break_is_name_order_not_insertion :
    DependencyGraph.mkGraph [("b", ([], [])), ("a", ([], []))]
      = .ok ⟨[⟨"a", [], []⟩, ⟨"b", [], []⟩], []⟩ ∧
    DependencyGraph.mkGraph [("a", ([], [])), ("b", ([], []))]
      = .ok ⟨[⟨"a", [], []⟩, ⟨"b", [], []⟩], []⟩ ∧
    DependencyGraph.buildSchedule ⟨[⟨"a", [], []⟩, ⟨"b", [], []⟩], []⟩
      = .ok ["a", "b"] ∧
    ["a", "b"] ≠ ["b", "a"] := by
  refine ⟨by rfl, by rfl, by rfl, by decide⟩

namespace DependencyGraph

theorem mem_foldl_adjStep (uname wf : String) (ns : List Node) :
    ∀ acc : List String, ∀ x : String,
    (x ∈ ns.foldl (adjStep uname wf) acc ↔
      x ∈ acc ∨ ∃ v : Node, v ∈ ns ∧ v.name = x ∧ v.name ≠ uname ∧ wf ∈ v.reads) := by
  induction ns with
  | nil =>
    intro acc x
    simp
  | cons v vs ih =>
    intro acc x
    rw [List.foldl_cons, ih]
    have hstep : x ∈ adjStep uname wf acc v ↔
        x ∈ acc ∨ (v.name = x ∧ v.name ≠ uname ∧ wf ∈ v.reads) := by
      unfold adjStep
      by_cases h1 : v.name = uname
      · simp [h1]
      · rw [if_neg h1]
        by_cases h2 : wf ∈ v.reads
        · rw [if_pos (by simpa using h2)]
          by_cases h4 : v.name ∈ acc
          · rw [if_pos (by simpa using h4)]
            constructor
            · exact fun hx => Or.inl hx
            · rintro (hx | ⟨hvx, -, -⟩)
              · exact hx
              · rw [← hvx]
                exact h4
          · rw [if_neg (by simpa using h4)]
            rw [List.mem_append, List.mem_singleton]
            constructor
            · rintro (hx | hx)
              · exact Or.inl hx
              · exact Or.inr ⟨hx.symm, h1, h2⟩
            · rintro (hx | ⟨hvx, -, -⟩)
              · exact Or.inl hx
              · exact Or.inr hvx.symm
        · rw [if_neg (by simpa using h2)]
          constructor
          · exact fun hx => Or.inl hx
          · rintro (hx | ⟨-, -, habs⟩)
            · exact hx
            · exact absurd habs h2
    rw [hstep]
    constructor
    · rintro (((hx | hv) | ⟨w, hw, hrest⟩))
      · exact Or.inl hx
      · exact Or.inr ⟨v, List.mem_cons_self v vs, hv⟩
      · exact Or.inr ⟨w, List.mem_cons_of_mem v hw, hrest⟩
    · rintro (hx | ⟨w, hw, hrest⟩)
      · exact Or.inl (Or.inl hx)
      · rcases List.mem_cons.mp hw with rfl | hw
        · exact Or.inl (Or.inr hrest)
        · exact Or.inr ⟨w, hw, hrest⟩

theorem mem_adjacencyOf (nodes : List Node) (u : Node) (x : String) :
    x ∈ adjacencyOf nodes u ↔
      ∃ wf : String, wf ∈ u.writes ∧
        ∃ v : Node, v ∈ nodes ∧ v.name = x ∧ v.name ≠ u.name ∧ wf ∈ v.reads := by
  unfold adjacencyOf
  suffices h : ∀ ws : List String, ∀ init : List String,
      x ∈ ws.foldl (fun acc wf => nodes.foldl (adjStep u.name wf) acc) init ↔
        x ∈ init ∨ ∃ wf, wf ∈ ws ∧
          ∃ v : Node, v ∈ nodes ∧ v.name = x ∧ v.name ≠ u.name ∧ wf ∈ v.reads by
    rw [h u.writes []]
    simp
  intro ws
  induction ws with
  | nil =>
    intro init
    simp
  | cons wf wfs ih =>
    intro init
    rw [List.foldl_cons, ih, mem_foldl_adjStep]
    constructor
    · rintro ((hx | ⟨v, hv, hrest⟩) | ⟨wf2, hwf2, hrest⟩)
      · exact Or.inl hx
      · exact Or.inr ⟨wf, List.mem_cons_self wf wfs, v, hv, hrest⟩
      · exact Or.inr ⟨wf2, List.mem_cons_of_mem wf hwf2, hrest⟩
    · rintro (hx | ⟨wf2, hwf2, hrest⟩)
      · exact Or.inl (Or.inl hx)
      · rcases List.mem_cons.mp hwf2 with rfl | hwf2
        · exact Or.inl (Or.inr hrest)
        · exact Or.inr ⟨wf2, hwf2, hrest⟩

end DependencyGraph

/-- C2 amended: after dependency computation a directed edge u -> v (v listed
among the dependents of u in m_adjacencyList) exists if and only if u and v are
distinct and writes(u) intersects reads(v): only RAW hazards are materialised;
write-write and read-write conflicts between distinct nodes produce no edge and
no ordering. -/
theorem c2_edges_are_raw_only
    (nodes : List DependencyGraph.Node)
    (hnd : (nodes.map DependencyGraph.Node.name).Nodup)
    (u v : DependencyGraph.Node) (hu : u ∈ nodes) (hv : v ∈ nodes) :
    v.name ∈ DependencyGraph.adjacencyOf nodes u ↔
      (u.name ≠ v.name ∧ ∃ f, f ∈ u.writes ∧ f ∈ v.reads) := by
  rw [DependencyGraph.mem_adjacencyOf]
  constructor
  · rintro ⟨wf, hwf, w, hw, hwname, hwne, hwreads⟩
    have hweq : w = v := by
      have hinj := List.inj_on_of_nodup_map hnd
      exact hinj hw hv hwname
    subst hweq
    exact ⟨fun h => hwne h.symm, wf, hwf, hwreads⟩
  · rintro ⟨hne, f, hfw, hfr⟩
    exact ⟨f, hfw, v, hv, rfl, fun h => hne h.symm, hfr⟩

/-- The edge condition exactly as claim C2 words it: RAW always, WAW and WAR
when u is declared before v. -/
def c2SpecEdge (uDeclaredBeforeV : Bool) (u v : DependencyGraph.Node) : Bool :=
  u.writes.any (fun f => v.reads.contains f) ||
  (uDeclaredBeforeV &&
    (u.writes.any (fun f => v.writes.contains f) ||
     u.reads.any (fun f => v.writes.contains f)))

/-- C2 counterexample: nodes A and B both write x (a WAW hazard) and A is
declared before B, so the claim requires the edge A -> B; computeDependencies
materialises no edge at all for this graph. -/
theorem c2_waw_edge_not_materialised :
    c2SpecEdge true ⟨"A", [], ["x"]⟩ ⟨"B", [], ["x"]⟩ = true ∧
    "B" ∉ DependencyGraph.adjacencyOf
        [⟨"A", [], ["x"]⟩, ⟨"B", [], ["x"]⟩] ⟨"A", [], ["x"]⟩ := by
  refine ⟨by decide, by decide⟩

/-- Witness for c2_edges_are_raw_only on the two-node graph where stencil B
reads the field x written by stencil A. -/
theorem c2_edges_are_raw_only_witness :
    ("B" : String) ∈ DependencyGraph.adjacencyOf
        [⟨"A", [], ["x"]⟩, ⟨"B", ["x"], []⟩] ⟨"A", [], ["x"]⟩ ↔
      (("A" : String) ≠ "B" ∧
       ∃ f, f ∈ (⟨"A", [], ["x"]⟩ : DependencyGraph.Node).writes ∧
            f ∈ (⟨"B", ["x"], []⟩ : DependencyGraph.Node).reads) :=
  c2_edges_are_raw_only [⟨"A", [], ["x"]⟩, ⟨"B", ["x"], []⟩] (by decide)
    ⟨"A", [], ["x"]⟩ ⟨"B", ["x"], []⟩ (by decide) (by decide)

namespace DependencyGraph

theorem charToNat_inj (c d : Char) (h : c.toNat = d.toNat) : c = d := by
  have h2 := congrArg Char.ofNat h
  rwa [Char.ofNat_toNat, Char.ofNat_toNat] at h2

theorem charListLt_cons (a b : Char) (as bs : List Char) :
    charListLt (a :: as) (b :: bs) =
      if a.toNat < b.toNat then true
      else if b.toNat < a.toNat then false
      else charListLt as bs := rfl

theorem charListLt_asymm : ∀ l1 l2 : List Char,
    charListLt l1 l2 = true → charListLt l2 l1 = false
  | [], [], h => by simpa [charListLt] using h
  | [], _ :: _, _ => by simp [charListLt]
  | _ :: _, [], h => by simpa [charListLt] using h
  | a :: as, b :: bs, h => by
      rw [charListLt_cons] at h
      rw [charListLt_cons]
      by_cases hab : a.toNat < b.toNat
      · rw [if_neg (by omega), if_pos (by omega)]
      · rw [if_neg hab] at h
        by_cases hba : b.toNat < a.toNat
        · rw [if_pos hba] at h
          exact absurd h (by simp)
        · rw [if_neg hba] at h
          rw [if_neg hba, if_neg hab]
          exact charListLt_asymm as bs h

theorem charListLt_trans : ∀ l1 l2 l3 : List Char,
    charListLt l1 l2 = true → charListLt l2 l3 = true → charListLt l1 l3 = true
  | [], [], _, h1, _ => by simpa [charListLt] using h1
  | [], _ :: _, [], _, h2 => by simpa [charListLt] using h2
  | [], _ :: _, _ :: _, _, _ => by simp [charListLt]
  | _ :: _, [], _, h1, _ => by simpa [charListLt] using h1
  | _ :: _, _ :: _, [], _, h2 => by simpa [charListLt] using h2
  | a :: as, b :: bs, c :: cs, h1, h2 => by
      rw [charListLt_cons] at h1 h2
      rw [charListLt_cons]
      by_cases hab : a.toNat < b.toNat
      · by_cases hbc : b.toNat < c.toNat
        · rw [if_pos (by omega)]
        · rw [if_neg hbc] at h2
          by_cases hcb : c.toNat < b.toNat
          · rw [if_pos hcb] at h2
            exact absurd h2 (by simp)
          · rw [if_pos (by omega)]
      · rw [if_neg hab] at h1
        by_cases hba : b.toNat < a.toNat
        · rw [if_pos hba] at h1
          exact absurd h1 (by simp)
        · rw [if_neg hba] at h1
          by_cases hbc : b.toNat < c.toNat
          · rw [if_pos (by omega)]
          · rw [if_neg hbc] at h2
            by_cases hcb : c.toNat < b.toNat
            · rw [if_pos hcb] at h2
              exact absurd h2 (by simp)
            · rw [if_neg hcb] at h2
              rw [if_neg (by omega), if_neg (by omega)]
              exact charListLt_trans as bs cs h1 h2

theorem charListLt_connex : ∀ l1 l2 : List Char, l1 ≠ l2 →
    charListLt l1 l2 = true ∨ charListLt l2 l1 = true
  | [], [], h => absurd rfl h
  | [], _ :: _, _ => Or.inl (by simp [charListLt])
  | _ :: _, [], _ => Or.inr (by simp [charListLt])
  | a :: as, b :: bs, h => by
      by_cases hab : a.toNat < b.toNat
      · exact Or.inl (by rw [charListLt_cons, if_pos hab])
      · by_cases hba : b.toNat < a.toNat
        · exact Or.inr (by rw [charListLt_cons, if_pos hba])
        · have hae : a = b := charToNat_inj a b (by omega)
          have hne : as ≠ bs := by
            intro hh
            exact h (by rw [hae, hh])
          rcases charListLt_connex as bs hne with hc | hc
          · refine Or.inl ?_
            rw [charListLt_cons, if_neg hab, if_neg hba]
            exact hc
          · refine Or.inr ?_
            rw [charListLt_cons, if_neg (hae ▸ hba), if_neg (hae ▸ hab)]
            exact hc

theorem strLt_asymm (a b : String) (h : strLt a b = true) : strLt b a = false :=
  charListLt_asymm a.toList b.toList h

theorem strLt_trans (a b c : String) (h1 : strLt a b = true) (h2 : strLt b c = true) :
    strLt a c = true :=
  charListLt_trans a.toList b.toList c.toList h1 h2

theorem strLt_connex (a b : String) (h : a ≠ b) :
    strLt a b = true ∨ strLt b a = true := by
  apply charListLt_connex
  intro hc
  apply h
  have hd : a.data = b.data := hc
  cases a
  cases b
  exact congrArg String.mk hd

/-- Strict name order on nodes: the std::map ordering of m_nodes. -/
def nodeLtP (a b : Node) : Prop :=
  strLt a.name b.name = true

theorem insertNode_perm (ns : List Node) (n : Node) :
    List.Perm (insertNode ns n) (n :: ns) := by
  induction ns with
  | nil => exact List.Perm.refl _
  | cons m rest ih =>
    unfold insertNode
    by_cases h : strLt n.name m.name = true
    · rw [if_pos h]
    · rw [if_neg h]
      exact (ih.cons m).trans (List.Perm.swap n m rest)

theorem insertNode_sorted (ns : List Node) (n : Node)
    (hs : List.Sorted nodeLtP ns) (hne : ∀ m ∈ ns, n.name ≠ m.name) :
    List.Sorted nodeLtP (insertNode ns n) := by
  induction ns with
  | nil => simp [insertNode]
  | cons m rest ih =>
    rw [List.sorted_cons] at hs
    obtain ⟨hm, hrest⟩ := hs
    unfold insertNode
    by_cases hlt : strLt n.name m.name = true
    · rw [if_pos hlt]
      rw [List.sorted_cons]
      refine ⟨?_, by rw [List.sorted_cons]; exact ⟨hm, hrest⟩⟩
      intro b hb
      rcases List.mem_cons.mp hb with rfl | hb
      · exact hlt
      · exact strLt_trans _ _ _ hlt (hm b hb)
    · rw [if_neg hlt]
      rw [List.sorted_cons]
      refine ⟨?_, ih hrest (fun m2 hm2 => hne m2 (List.mem_cons_of_mem _ hm2))⟩
      intro b hb
      rcases List.mem_cons.mp ((insertNode_perm rest n).mem_iff.mp hb) with rfl | hb
      · rcases strLt_connex m.name b.name
          (fun hh => hne m (List.mem_cons_self m rest) hh.symm) with hc | hc
        · exact hc
        · exact absurd hc hlt
      · exact hm b hb

theorem hasNodeNamed_true_iff (ns : List Node) (nm : String) :
    hasNodeNamed ns nm = true ↔ nm ∈ ns.map Node.name := by
  unfold hasNodeNamed
  rw [List.any_eq_true]
  constructor
  · rintro ⟨m, hm, hname⟩
    rw [decide_eq_true_iff] at hname
    exact List.mem_map.mpr ⟨m, hm, hname⟩
  · intro h
    obtain ⟨m, hm, hname⟩ := List.mem_map.mp h
    exact ⟨m, hm, decide_eq_true_iff.mpr hname⟩

/-- The node record an addNode request creates. -/
def reqNode (r : String × List String × List String) : Node :=
  ⟨r.1, r.2.1, r.2.2⟩

theorem mkGraphGo_ok (rs : List (String × List String × List String)) :
    ∀ g : GraphState, List.Sorted nodeLtP g.nodes →
    ((g.nodes.map Node.name) ++ rs.map Prod.fst).Nodup →
    ∃ g2 : GraphState, mkGraphGo g rs = .ok g2 ∧
      List.Perm g2.nodes ((rs.map reqNode) ++ g.nodes) ∧
      List.Sorted nodeLtP g2.nodes ∧
      g2.adjacency = g.adjacency := by
  induction rs with
  | nil =>
    intro g hs _
    exact ⟨g, rfl, by simp, hs, rfl⟩
  | cons r rest ih =>
    intro g hs hn
    have hnotin : r.1 ∉ g.nodes.map Node.name := by
      rw [List.nodup_append] at hn
      intro hmem
      exact hn.2.2 hmem (List.mem_cons_self _ _)
    have hfalse : hasNodeNamed g.nodes r.1 = false := by
      rw [← Bool.not_eq_true, hasNodeNamed_true_iff]
      exact hnotin
    have hstep : mkGraphGo g (r :: rest)
        = mkGraphGo ⟨insertNode g.nodes (reqNode r), g.adjacency⟩ rest := by
      show (match addNode g r.1 r.2.1 r.2.2 with
            | Except.error e => Except.error e
            | Except.ok g2 => mkGraphGo g2 rest) = _
      unfold addNode
      rw [hfalse, if_neg Bool.false_ne_true]
      rfl
    have hpermnames : List.Perm ((insertNode g.nodes (reqNode r)).map Node.name)
        (r.1 :: g.nodes.map Node.name) :=
      (insertNode_perm g.nodes (reqNode r)).map Node.name
    have hnodup2 :
        ((insertNode g.nodes (reqNode r)).map Node.name ++ rest.map Prod.fst).Nodup := by
      have hp1 : List.Perm
          ((insertNode g.nodes (reqNode r)).map Node.name ++ rest.map Prod.fst)
          (g.nodes.map Node.name ++ (r.1 :: rest.map Prod.fst)) :=
        (hpermnames.append_right _).trans List.perm_middle.symm
      rw [hp1.nodup_iff]
      exact hn
    have hsorted2 : List.Sorted nodeLtP (insertNode g.nodes (reqNode r)) := by
      apply insertNode_sorted _ _ hs
      intro m hm hname
      exact hnotin (List.mem_map.mpr ⟨m, hm, hname.symm⟩)
    obtain ⟨g2, hg2, hperm2, hsort2, hadj2⟩ :=
      ih ⟨insertNode g.nodes (reqNode r), g.adjacency⟩ hsorted2 hnodup2
    refine ⟨g2, by rw [hstep]; exact hg2, ?_, hsort2, hadj2⟩
    refine hperm2.trans ?_
    refine (List.Perm.append_left _ (insertNode_perm g.nodes (reqNode r))).trans ?_
    exact List.perm_middle

theorem mkGraphGo_err (rs : List (String × List String × List String)) :
    ∀ g : GraphState, (g.nodes.map Node.name).Nodup →
    ¬ ((g.nodes.map Node.name) ++ rs.map Prod.fst).Nodup →
    mkGraphGo g rs = .error .duplicateNode := by
  induction rs with
  | nil =>
    intro g hgn hn
    exact absurd (by simpa using hgn) hn
  | cons r rest ih =>
    intro g hgn hn
    by_cases hdup : hasNodeNamed g.nodes r.1 = true
    · show (match addNode g r.1 r.2.1 r.2.2 with
            | Except.error e => Except.error e
            | Except.ok g2 => mkGraphGo g2 rest) = _
      unfold addNode
      rw [if_pos hdup]
    · have hfalse : hasNodeNamed g.nodes r.1 = false := by
        simpa using hdup
      have hnotin : r.1 ∉ g.nodes.map Node.name := by
        rw [← hasNodeNamed_true_iff]
        simp [hfalse]
      have hstep : mkGraphGo g (r :: rest)
          = mkGraphGo ⟨insertNode g.nodes (reqNode r), g.adjacency⟩ rest := by
        show (match addNode g r.1 r.2.1 r.2.2 with
              | Except.error e => Except.error e
              | Except.ok g2 => mkGraphGo g2 rest) = _
        unfold addNode
        rw [hfalse, if_neg Bool.false_ne_true]
        rfl
      rw [hstep]
      have hpermnames : List.Perm ((insertNode g.nodes (reqNode r)).map Node.name)
          (r.1 :: g.nodes.map Node.name) :=
        (insertNode_perm g.nodes (reqNode r)).map Node.name
      apply ih
      · rw [hpermnames.nodup_iff]
        exact List.nodup_cons.mpr ⟨hnotin, hgn⟩
      · intro hcontra
        apply hn
        have hp1 : List.Perm
            ((insertNode g.nodes (reqNode r)).map Node.name ++ rest.map Prod.fst)
            (g.nodes.map Node.name ++ (r.1 :: rest.map Prod.fst)) :=
          (hpermnames.append_right _).trans List.perm_middle.symm
        show (List.map Node.name g.nodes ++ (r.1 :: List.map Prod.fst rest)).Nodup
        exact hp1.nodup_iff.mp hcontra

end DependencyGraph

namespace DependencyGraph

/-- The schedule obtained for a program of addNode requests: build the graph,
then run buildSchedule (errors propagate). -/
def scheduleOfProgram (rs : List (String × List String × List String)) :
    Except GraphError (List String) :=
  match mkGraph rs with
  | .error e => .error e
  | .ok g => buildSchedule g

end DependencyGraph

/-- C6 amended: the zero-in-degree queue is ordered by the std::map name order
of m_nodes, with lexicographic node-name order (not insertion order) as the
tie-breaker; consequently two programs that add the same nodes in different
orders build identical graph states and identical schedules, and independent
nodes are listed in name order regardless of insertion order. -/
theorem c6_schedule_independent_of_insertion_order
    (rs rs2 : List (String × List String × List String))
    (hp : List.Perm rs rs2) :
    DependencyGraph.mkGraph rs = DependencyGraph.mkGraph rs2 ∧
    DependencyGraph.scheduleOfProgram rs = DependencyGraph.scheduleOfProgram rs2 := by
  have hmk : DependencyGraph.mkGraph rs = DependencyGraph.mkGraph rs2 := by
    by_cases hnd : (rs.map Prod.fst).Nodup
    · have hnd2 : (rs2.map Prod.fst).Nodup := ((hp.map Prod.fst).nodup_iff).mp hnd
      obtain ⟨g1, hg1, hp1, hs1, ha1⟩ :=
        DependencyGraph.mkGraphGo_ok rs DependencyGraph.emptyGraph
          (by simp [DependencyGraph.emptyGraph]) (by simpa [DependencyGraph.emptyGraph] using hnd)
      obtain ⟨g2, hg2, hp2, hs2, ha2⟩ :=
        DependencyGraph.mkGraphGo_ok rs2 DependencyGraph.emptyGraph
          (by simp [DependencyGraph.emptyGraph]) (by simpa [DependencyGraph.emptyGraph] using hnd2)
      have hper : List.Perm g1.nodes g2.nodes := by
        refine hp1.trans (List.Perm.trans ?_ hp2.symm)
        exact (hp.map DependencyGraph.reqNode).append_right _
      have heq : g1.nodes = g2.nodes := by
        haveI : IsAntisymm DependencyGraph.Node DependencyGraph.nodeLtP := by
          refine ⟨fun a b h1 h2 => ?_⟩
          have h3 := DependencyGraph.strLt_asymm a.name b.name h1
          rw [h2] at h3
          exact absurd h3 (by simp)
        exact List.eq_of_perm_of_sorted hper hs1 hs2
      have hgeq : g1 = g2 := by
        cases g1
        cases g2
        simp only at heq ha1 ha2
        rw [heq, ha1, ha2]
      rw [DependencyGraph.mkGraph, DependencyGraph.mkGraph, hg1, hg2, hgeq]
    · have hnd2 : ¬ (rs2.map Prod.fst).Nodup :=
        fun h => hnd (((hp.map Prod.fst).nodup_iff).mpr h)
      rw [DependencyGraph.mkGraph, DependencyGraph.mkGraph,
        DependencyGraph.mkGraphGo_err rs DependencyGraph.emptyGraph
          (by simp [DependencyGraph.emptyGraph]) (by simpa [DependencyGraph.emptyGraph] using hnd),
        DependencyGraph.mkGraphGo_err rs2 DependencyGraph.emptyGraph
          (by simp [DependencyGraph.emptyGraph]) (by simpa [DependencyGraph.emptyGraph] using hnd2)]
  refine ⟨hmk, ?_⟩
  unfold DependencyGraph.scheduleOfProgram
  rw [hmk]

/-- Witness for c6_schedule_independent_of_insertion_order: the two insertion
orders of the independent nodes a and b build the same graph and the same
schedule. -/
theorem c6_schedule_independent_of_insertion_order_witness :
    DependencyGraph.mkGraph [("b", ([], [])), ("a", ([], []))]
      = DependencyGraph.mkGraph [("a", ([], [])), ("b", ([], []))] ∧
    DependencyGraph.scheduleOfProgram [("b", ([], [])), ("a", ([], []))]
      = DependencyGraph.scheduleOfProgram [("a", ([], [])), ("b", ([], []))] :=
  c6_schedule_independent_of_insertion_order
    [("b", ([], [])), ("a", ([], []))] [("a", ([], [])), ("b", ([], []))]
    (List.Perm.swap ("a", ([], [])) ("b", ([], [])) [])

namespace GpuGridManager

/-- Two's complement value of a 32-bit signed integer seen as unsigned (the
implicit int32 -> uint32 conversion at the getMortonCode call sites). -/
def toUInt32Val (i : Int) : Nat :=
  (i % 4294967296).toNat

/-- The expandBits lambda of GpuGridManager::getMortonCode
(GpuGridManager.cpp, lines 13-20): note that the mask chain keeps only the low
10 bits of the input (0x09249249 has ten set bits), not 21. -/
def expandBits (v : Nat) : Nat :=
  let x := v
  let x := (x ||| (x <<< 16)) &&& 0x030000FF
  let x := (x ||| (x <<< 8)) &&& 0x0300F00F
  let x := (x ||| (x <<< 4)) &&& 0x030C30C3
  let x := (x ||| (x <<< 2)) &&& 0x09249249
  x

/-- GpuGridManager::getMortonCode (GpuGridManager.cpp, lines 11-23). -/
def getMortonCode (x y z : Nat) : Nat :=
  expandBits x ||| (expandBits y <<< 1) ||| (expandBits z <<< 2)

/-- The Morton key of a coordinate as the sort comparator of upload computes it. -/
def mortonOfCoord (c : Coord3) : Nat :=
  getMortonCode (toUInt32Val c.x) (toUInt32Val c.y) (toUInt32Val c.z)

/-- Comparator-induced total preorder used to model the std::sort of upload
(GpuGridManager.cpp, lines 75-92); sorting with the strict comparator
getMortonCode < getMortonCode produces a sequence non-decreasing under this
relation, and the pairs are permuted together via sortIndices. -/
def mortonLe (p q : Coord3 × Nat) : Prop :=
  mortonOfCoord p.1 ≤ mortonOfCoord q.1

instance : DecidableRel mortonLe := fun p q => by
  unfold mortonLe
  infer_instance

/-- Steps 1-2 of GpuGridManager::upload: the collected (coordinate, value)
pairs of the source grid's active voxels (the per-leaf iteration of the
external NanoVDB library supplies them) sorted by the embedded Morton code.
Values are opaque payloads moved alongside the coordinates; they are modelled
as Nat tags. -/
def sortedPairs (ps : List (Coord3 × Nat)) : List (Coord3 × Nat) :=
  List.insertionSort mortonLe ps

/-- The coordinate LUT emitted by upload. -/
def lutOf (ps : List (Coord3 × Nat)) : List Coord3 :=
  (sortedPairs ps).map Prod.fst

/-- The linear value array emitted by upload. -/
def valuesOf (ps : List (Coord3 × Nat)) : List Nat :=
  (sortedPairs ps).map Prod.snd

/-- Bit spreading for the Morton key as the spec words it: every one of the 21
bits of a component goes to position 3i. -/
def spread21 (v : Nat) : Nat :=
  (List.range 21).foldl (fun a i => a ||| (((v >>> i) &&& 1) <<< (3 * i))) 0

/-- The Morton key of claim C4 and of the spec's data model, with 21 bits per
signed component (the low 21 bits of the two's complement value). -/
def mortonSpec21 (c : Coord3) : Nat :=
  spread21 ((c.x % 2097152).toNat) |||
  (spread21 ((c.y % 2097152).toNat) <<< 1) |||
  (spread21 ((c.z % 2097152).toNat) <<< 2)

end GpuGridManager

/-- C4 counterexample: the claim promises the emitted LUT is strictly
increasing under the 21-bit Morton key.  The comparator actually truncates each
component to 10 bits, so for the active voxels (1024,0,0) (code 0) and (1,0,0)
(code 1) upload emits the LUT [(1024,0,0), (1,0,0)], which is strictly
decreasing under the spec's 21-bit key. -/
theorem c4_lut_not_sorted_by_21bit_morton :
    ([((⟨1024,0,0⟩ : Coord3), 10), ((⟨1,0,0⟩ : Coord3), 20)] ≠
      ([] : List (Coord3 × Nat))) ∧
    GpuGridManager.lutOf [(⟨1024,0,0⟩, 10), (⟨1,0,0⟩, 20)] = [⟨1024,0,0⟩, ⟨1,0,0⟩] ∧
    ¬ (GpuGridManager.lutOf [(⟨1024,0,0⟩, 10), (⟨1,0,0⟩, 20)]).Pairwise
        (fun a b => GpuGridManager.mortonSpec21 a < GpuGridManager.mortonSpec21 b) := by
  refine ⟨by decide, by decide, by decide⟩

/-- C4 amended: for every non-empty collection of active (coordinate, value)
pairs whose coordinates have pairwise distinct codes under the Morton key the
code actually computes (10 bits per component, after truncating each uint32
component to its low 10 bits), the emitted LUT is strictly increasing under
that 10-bit Morton key, and for every index i, values[i] is the source voxel
value at coordinate LUT[i]. -/
theorem c4_lut_sorted_by_10bit_morton_and_values_aligned
    (ps : List (Coord3 × Nat)) (hne : ps ≠ [])
    (hdist : ps.Pairwise
      (fun p q => GpuGridManager.mortonOfCoord p.1 ≠ GpuGridManager.mortonOfCoord q.1)) :
    (GpuGridManager.lutOf ps).Pairwise
      (fun a b => GpuGridManager.mortonOfCoord a < GpuGridManager.mortonOfCoord b) ∧
    (∀ i : Nat, ∀ c : Coord3, ∀ v : Nat,
      (GpuGridManager.lutOf ps)[i]? = some c →
      (GpuGridManager.valuesOf ps)[i]? = some v → (c, v) ∈ ps) := by
  haveI hTot : IsTotal (Coord3 × Nat) GpuGridManager.mortonLe :=
    ⟨fun p q => Nat.le_total _ _⟩
  haveI hTr : IsTrans (Coord3 × Nat) GpuGridManager.mortonLe :=
    ⟨fun p q r h1 h2 => Nat.le_trans h1 h2⟩
  have hperm : List.Perm (GpuGridManager.sortedPairs ps) ps :=
    List.perm_insertionSort GpuGridManager.mortonLe ps
  have hsortle : List.Sorted GpuGridManager.mortonLe (GpuGridManager.sortedPairs ps) :=
    List.sorted_insertionSort GpuGridManager.mortonLe ps
  have hdist2 : (GpuGridManager.sortedPairs ps).Pairwise
      (fun p q => GpuGridManager.mortonOfCoord p.1 ≠ GpuGridManager.mortonOfCoord q.1) := by
    refine (List.Perm.pairwise_iff ?_ hperm).mpr hdist
    intro p q h
    exact h.symm
  constructor
  · rw [GpuGridManager.lutOf, List.pairwise_map]
    have hand := List.Pairwise.and hsortle hdist2
    refine hand.imp ?_
    rintro p q ⟨hle, hne2⟩
    exact Nat.lt_of_le_of_ne hle hne2
  · intro i c v hc hv
    rw [GpuGridManager.lutOf, List.getElem?_map] at hc
    rw [GpuGridManager.valuesOf, List.getElem?_map] at hv
    cases hpr : (GpuGridManager.sortedPairs ps)[i]? with
    | none =>
        rw [hpr] at hc
        simp at hc
    | some pr =>
        rw [hpr] at hc hv
        have hc2 : pr.1 = c := by
          simpa using hc
        have hv2 : pr.2 = v := by
          simpa using hv
        have hmem : pr ∈ GpuGridManager.sortedPairs ps := List.getElem?_mem hpr
        have hpr2 : pr = (c, v) := Prod.ext hc2 hv2
        rw [← hpr2]
        exact hperm.mem_iff.mp hmem

/-- Witness for c4_lut_sorted_by_10bit_morton_and_values_aligned on the
two-voxel grid (0,0,0) value 1 and (1,2,3) value 2. -/
theorem c4_lut_sorted_by_10bit_morton_and_values_aligned_witness :
    (GpuGridManager.lutOf [(⟨0,0,0⟩, 1), (⟨1,2,3⟩, 2)]).Pairwise
      (fun a b => GpuGridManager.mortonOfCoord a < GpuGridManager.mortonOfCoord b) ∧
    (∀ i : Nat, ∀ c : Coord3, ∀ v : Nat,
      (GpuGridManager.lutOf [(⟨0,0,0⟩, 1), (⟨1,2,3⟩, 2)])[i]? = some c →
      (GpuGridManager.valuesOf [(⟨0,0,0⟩, 1), (⟨1,2,3⟩, 2)])[i]? = some v →
      (c, v) ∈ [((⟨0,0,0⟩ : Coord3), 1), (⟨1,2,3⟩, 2)]) :=
  c4_lut_sorted_by_10bit_morton_and_values_aligned
    [(⟨0,0,0⟩, 1), (⟨1,2,3⟩, 2)] (by decide) (by decide)

namespace DomainSplitter

/-- Embedding of nanovdb::CoordBBox: inclusive min and max corners. -/
structure BBox where
  bmin : Coord3
  bmax : Coord3
deriving DecidableEq

/-- CoordBBox::isInside: componentwise min ≤ c ≤ max. -/
def isInside (b : BBox) (c : Coord3) : Prop :=
  b.bmin.x ≤ c.x ∧ c.x ≤ b.bmax.x ∧
  b.bmin.y ≤ c.y ∧ c.y ≤ b.bmax.y ∧
  b.bmin.z ≤ c.z ∧ c.z ≤ b.bmax.z

instance (b : BBox) (c : Coord3) : Decidable (isInside b c) := by
  unfold isInside
  infer_instance

/-- CoordBBox::expand by another box: componentwise min of mins, max of maxes. -/
def expandBB (a b : BBox) : BBox :=
  ⟨⟨min a.bmin.x b.bmin.x, min a.bmin.y b.bmin.y, min a.bmin.z b.bmin.z⟩,
   ⟨max a.bmax.x b.bmax.x, max a.bmax.y b.bmax.y, max a.bmax.z b.bmax.z⟩⟩

/-- CoordBBox::volume: product of the per-axis dimensions max - min + 1. -/
def volume (b : BBox) : Nat :=
  ((b.bmax.x - b.bmin.x + 1).toNat) * ((b.bmax.y - b.bmin.y + 1).toNat) *
    ((b.bmax.z - b.bmin.z + 1).toNat)

/-- DomainSplitter::getMortonCode (DomainSplitter.cpp, lines 11-27): the same
10-bit expandBits lambda as GpuGridManager, applied to the uint32-converted
components of the box's minimum corner. -/
def getMortonCode (c : Coord3) : Nat :=
  GpuGridManager.getMortonCode (GpuGridManager.toUInt32Val c.x)
    (GpuGridManager.toUInt32Val c.y) (GpuGridManager.toUInt32Val c.z)

/-- One leaf of the host grid as the external NanoVDB tree iteration presents
it: its bounding box (it->bbox()) and the active voxels it stores. -/
structure LeafIn where
  box : BBox
  voxels : List Coord3
deriving DecidableEq

/-- Embedding of domain::SubDomain as far as the claims use it (the neighbour
list computed afterwards by computeNeighbors is not involved in claim C5). -/
structure SubDomain where
  gpuIndex : Nat
  bounds : BBox
  assignedLeaves : List BBox
  activeVoxelCount : Nat
deriving DecidableEq

/-- The active voxels counted for a finalized domain (DomainSplitter.cpp,
lines 112-119): the grid's active voxels inside the domain's bounding box. -/
def countInside (actives : List Coord3) (b : BBox) : Nat :=
  (actives.filter (fun v => decide (isInside b v))).length

/-- uint32_t value of gpuCount - 1 in the sweep condition (wraps at 0). -/
def gpuCountMinusOne (gpuCount : Nat) : Nat :=
  (gpuCount + 4294967295) % 4294967296

/-- The running bounding box after absorbing the next leaf box: the leaf box
itself when boundsInitialized is false, otherwise currentBounds.expand(leafBox). -/
def expandOpt (obnds : Option BBox) (lb : BBox) : BBox :=
  match obnds with
  | none => lb
  | some b => expandBB b lb

/-- The leaf sweep of DomainSplitter::split (DomainSplitter.cpp, lines 86-131):
each Morton-sorted leaf box joins the current bucket and expands the running
bounds; when the running box volume reaches the target (and buckets remain) or
the last leaf is consumed, the current domain is finalized with the expanded
bounds, its assigned leaves, and the count of grid actives inside the bounds.
Empty trailing buckets are the ones the source erases afterwards; they are
simply never produced here. -/
def sweepLoop (gpuCount : Nat) (actives : List Coord3) (target : Nat) :
    List BBox → Nat → Nat → Option BBox → List BBox → List SubDomain
  | [], _, _, _, _ => []
  | lb :: rest, gpu, cnt, obnds, bucket =>
      if (target ≤ cnt + volume lb ∧ gpu < gpuCountMinusOne gpuCount) ∨
          rest.isEmpty = true then
        if rest.isEmpty then
          [⟨gpu, expandOpt obnds lb, bucket ++ [lb],
            countInside actives (expandOpt obnds lb)⟩]
        else
          ⟨gpu, expandOpt obnds lb, bucket ++ [lb],
            countInside actives (expandOpt obnds lb)⟩ ::
            sweepLoop gpuCount actives target rest (gpu + 1) 0 none []
      else
        sweepLoop gpuCount actives target rest gpu (cnt + volume lb)
          (some (expandOpt obnds lb)) (bucket ++ [lb])

/-- Comparator preorder of the leaf sort (sort by Morton code of the minimum
corner, DomainSplitter.cpp lines 75-76). -/
def leafMortonLe (a b : BBox) : Prop :=
  getMortonCode a.bmin ≤ getMortonCode b.bmin

instance : DecidableRel leafMortonLe := fun a b => by
  unfold leafMortonLe
  infer_instance

/-- DomainSplitter::split (DomainSplitter.cpp, lines 34-148).  The external
NanoVDB grid is presented as its index bounding box, its leaves and its active
voxel list (totalVoxels = hostGrid->activeVoxelCount() = the length of that
list).  The single-GPU branch returns one domain holding every leaf and every
active voxel; the multi-GPU branch sorts the leaf boxes by Morton code and
sweeps them into buckets.  computeNeighbors and analyzeBalance only fill data
that claim C5 does not mention and are omitted. -/
def split (gpuCount : Nat) (gridBB : BBox) (leaves : List LeafIn)
    (actives : List Coord3) : List SubDomain :=
  if gpuCount = 1 then
    [⟨0, gridBB, leaves.map LeafIn.box, actives.length⟩]
  else
    sweepLoop gpuCount actives (actives.length / gpuCount)
      (List.insertionSort leafMortonLe (leaves.map LeafIn.box)) 0 0 none []

/-- The active-voxel set of a sub-domain: the grid actives inside its bounds
(what the per-domain counting loop counts). -/
def domainVoxels (actives : List Coord3) (d : SubDomain) : List Coord3 :=
  actives.filter (fun v => decide (isInside d.bounds v))

end DomainSplitter

/-- C5 counterexample: a grid with three leaves whose Morton-consecutive
bounding-box unions overlap.  Leaf boxes (0,0,0)-(7,7,7) holding voxels (0,0,0)
and (7,7,7), (8,0,0) holding (8,0,0), (0,8,0) holding (0,8,0); gpu_count = 2.
The sweep puts the first leaf in domain 0 (bounds (0,0,0)-(7,7,7), 2 voxels)
and the other two in domain 1, whose expanded bounds (0,0,0)-(8,8,0) also
contain the voxel (0,0,0) of domain 0: the per-domain active-voxel sets are not
disjoint and the counts 2 and 3 sum to 5, not to the grid total 4. -/
theorem c5_domain_voxel_sets_overlap :
    DomainSplitter.split 2 ⟨⟨0,0,0⟩, ⟨8,8,7⟩⟩
        [⟨⟨⟨0,0,0⟩, ⟨7,7,7⟩⟩, [⟨0,0,0⟩, ⟨7,7,7⟩]⟩,
         ⟨⟨⟨8,0,0⟩, ⟨8,0,0⟩⟩, [⟨8,0,0⟩]⟩,
         ⟨⟨⟨0,8,0⟩, ⟨0,8,0⟩⟩, [⟨0,8,0⟩]⟩]
        [⟨0,0,0⟩, ⟨7,7,7⟩, ⟨8,0,0⟩, ⟨0,8,0⟩]
      = [⟨0, ⟨⟨0,0,0⟩, ⟨7,7,7⟩⟩, [⟨⟨0,0,0⟩, ⟨7,7,7⟩⟩], 2⟩,
         ⟨1, ⟨⟨0,0,0⟩, ⟨8,8,0⟩⟩, [⟨⟨8,0,0⟩, ⟨8,0,0⟩⟩, ⟨⟨0,8,0⟩, ⟨0,8,0⟩⟩], 3⟩] ∧
    (⟨0,0,0⟩ : Coord3) ∈ DomainSplitter.domainVoxels
        [⟨0,0,0⟩, ⟨7,7,7⟩, ⟨8,0,0⟩, ⟨0,8,0⟩]
        ⟨0, ⟨⟨0,0,0⟩, ⟨7,7,7⟩⟩, [⟨⟨0,0,0⟩, ⟨7,7,7⟩⟩], 2⟩ ∧
    (⟨0,0,0⟩ : Coord3) ∈ DomainSplitter.domainVoxels
        [⟨0,0,0⟩, ⟨7,7,7⟩, ⟨8,0,0⟩, ⟨0,8,0⟩]
        ⟨1, ⟨⟨0,0,0⟩, ⟨8,8,0⟩⟩, [⟨⟨8,0,0⟩, ⟨8,0,0⟩⟩, ⟨⟨0,8,0⟩, ⟨0,8,0⟩⟩], 3⟩ ∧
    2 + 3 ≠ ([(⟨0,0,0⟩ : Coord3), ⟨7,7,7⟩, ⟨8,0,0⟩, ⟨0,8,0⟩] : List Coord3).length := by
  refine ⟨by decide, by decide, by decide, by decide⟩

namespace DomainSplitter

theorem isInside_expandBB_left (a b : BBox) (v : Coord3) (h : isInside a v) :
    isInside (expandBB a b) v := by
  obtain ⟨h1, h2, h3, h4, h5, h6⟩ := h
  exact ⟨le_trans (min_le_left _ _) h1, le_trans h2 (le_max_left _ _),
         le_trans (min_le_left _ _) h3, le_trans h4 (le_max_left _ _),
         le_trans (min_le_left _ _) h5, le_trans h6 (le_max_left _ _)⟩

theorem isInside_expandBB_right (a b : BBox) (v : Coord3) (h : isInside b v) :
    isInside (expandBB a b) v := by
  obtain ⟨h1, h2, h3, h4, h5, h6⟩ := h
  exact ⟨le_trans (min_le_right _ _) h1, le_trans h2 (le_max_right _ _),
         le_trans (min_le_right _ _) h3, le_trans h4 (le_max_right _ _),
         le_trans (min_le_right _ _) h5, le_trans h6 (le_max_right _ _)⟩

/-- Every leaf box fed to the sweep ends up below the bounding box of some
produced sub-domain: the bucket invariant says the running bounds dominate
every box already in the bucket. -/
theorem sweepLoop_covers (gpuCount : Nat) (actives : List Coord3) (target : Nat) :
    ∀ boxes : List BBox, ∀ gpu cnt : Nat, ∀ obnds : Option BBox, ∀ bucket : List BBox,
    (match obnds with
     | none => bucket = []
     | some b => ∀ bb ∈ bucket, ∀ v : Coord3, isInside bb v → isInside b v) →
    (boxes = [] → bucket = []) →
    ∀ bb, bb ∈ bucket ++ boxes →
    ∃ d ∈ sweepLoop gpuCount actives target boxes gpu cnt obnds bucket,
      ∀ v : Coord3, isInside bb v → isInside d.bounds v := by
  intro boxes
  induction boxes with
  | nil =>
    intro gpu cnt obnds bucket hinv hemp bb hbb
    rw [hemp rfl] at hbb
    simp at hbb
  | cons lb rest ih =>
    intro gpu cnt obnds bucket hinv hemp bb hbb
    have hinv2 : ∀ bb2 ∈ bucket ++ [lb], ∀ v : Coord3,
        isInside bb2 v → isInside (expandOpt obnds lb) v := by
      intro bb2 hbb2 v hv
      rcases List.mem_append.mp hbb2 with hbb2 | hbb2
      · cases obnds with
        | none =>
            rw [hinv] at hbb2
            simp at hbb2
        | some b =>
            exact isInside_expandBB_left b lb v (hinv bb2 hbb2 v hv)
      · rw [List.mem_singleton] at hbb2
        rw [hbb2] at hv
        cases obnds with
        | none => exact hv
        | some b => exact isInside_expandBB_right b lb v hv
    show ∃ d ∈ (if (target ≤ cnt + volume lb ∧ gpu < gpuCountMinusOne gpuCount) ∨
          rest.isEmpty = true then
        if rest.isEmpty then
          [⟨gpu, expandOpt obnds lb, bucket ++ [lb],
            countInside actives (expandOpt obnds lb)⟩]
        else
          ⟨gpu, expandOpt obnds lb, bucket ++ [lb],
            countInside actives (expandOpt obnds lb)⟩ ::
            sweepLoop gpuCount actives target rest (gpu + 1) 0 none []
      else
        sweepLoop gpuCount actives target rest gpu (cnt + volume lb)
          (some (expandOpt obnds lb)) (bucket ++ [lb])), _
    by_cases hcond : (target ≤ cnt + volume lb ∧ gpu < gpuCountMinusOne gpuCount) ∨
        rest.isEmpty = true
    · rw [if_pos hcond]
      by_cases hlast : rest.isEmpty
      · rw [if_pos hlast]
        have hrest : rest = [] := List.isEmpty_iff.mp hlast
        subst hrest
        refine ⟨_, List.mem_singleton_self _, ?_⟩
        intro v hv
        exact hinv2 bb hbb v hv
      · rw [if_neg hlast]
        rcases List.mem_append.mp hbb with hbb | hbb
        · refine ⟨_, List.mem_cons_self _ _, ?_⟩
          intro v hv
          exact hinv2 bb (List.mem_append.mpr (Or.inl hbb)) v hv
        · rcases List.mem_cons.mp hbb with rfl | hbb
          · refine ⟨_, List.mem_cons_self _ _, ?_⟩
            intro v hv
            exact hinv2 bb (List.mem_append.mpr (Or.inr (List.mem_singleton_self _))) v hv
          · obtain ⟨d, hd, hcov⟩ :=
              ih (gpu + 1) 0 none [] rfl (fun _ => rfl) bb (by simpa using hbb)
            exact ⟨d, List.mem_cons_of_mem _ hd, hcov⟩
    · rw [if_neg hcond]
      have hlast : rest.isEmpty = false := by
        rcases Bool.eq_false_or_eq_true rest.isEmpty with h | h
        · exact absurd (Or.inr h) hcond
        · exact h
      have hrest : rest ≠ [] := by
        intro hh
        rw [hh] at hlast
        simp at hlast
      have hmem2 : bb ∈ (bucket ++ [lb]) ++ rest := by
        rw [List.append_assoc]
        simpa using hbb
      exact ih gpu (cnt + volume lb) (some (expandOpt obnds lb)) (bucket ++ [lb])
        hinv2 (fun hh => absurd hh hrest) bb hmem2

end DomainSplitter

/-- C5 amended: for every domain split of a non-empty grid the union over all
returned sub-domains of the active voxels counted as belonging to each
sub-domain (the grid actives inside the sub-domain's bounding box) equals the
full active voxel set of the grid; but the per-sub-domain sets need not be
pairwise disjoint, because the bounding-box unions of Morton-consecutive leaf
buckets can overlap, so a voxel can be counted in several sub-domains and the
counts can sum to more than the grid total. -/
theorem c5_domain_union_covers_actives
    (gpuCount : Nat) (gridBB : DomainSplitter.BBox)
    (leaves : List DomainSplitter.LeafIn) (actives : List Coord3)
    (hleaf : ∀ lf ∈ leaves, ∀ v ∈ lf.voxels, DomainSplitter.isInside lf.box v)
    (hact : actives = (leaves.map DomainSplitter.LeafIn.voxels).flatten)
    (hgrid : ∀ v ∈ actives, DomainSplitter.isInside gridBB v)
    (hk : 1 ≤ gpuCount) (hne : actives ≠ []) :
    (∀ v ∈ actives, ∃ d ∈ DomainSplitter.split gpuCount gridBB leaves actives,
      v ∈ DomainSplitter.domainVoxels actives d) ∧
    (∀ d ∈ DomainSplitter.split gpuCount gridBB leaves actives,
      ∀ v ∈ DomainSplitter.domainVoxels actives d, v ∈ actives) := by
  constructor
  · intro v hv
    by_cases h1 : gpuCount = 1
    · refine ⟨⟨0, gridBB, leaves.map DomainSplitter.LeafIn.box, actives.length⟩, ?_, ?_⟩
      · rw [DomainSplitter.split, if_pos h1]
        exact List.mem_singleton_self _
      · rw [DomainSplitter.domainVoxels, List.mem_filter]
        exact ⟨hv, decide_eq_true (hgrid v hv)⟩
    · rw [hact] at hv
      rw [List.mem_flatten] at hv
      obtain ⟨vl, hvl, hvin⟩ := hv
      obtain ⟨lf, hlf, hlfeq⟩ := List.mem_map.mp hvl
      rw [← hlfeq] at hvin
      have hins : DomainSplitter.isInside lf.box v := hleaf lf hlf v hvin
      have hboxmem : lf.box ∈
          List.insertionSort DomainSplitter.leafMortonLe
            (leaves.map DomainSplitter.LeafIn.box) := by
        rw [List.mem_insertionSort]
        exact List.mem_map.mpr ⟨lf, hlf, rfl⟩
      obtain ⟨d, hd, hcov⟩ :=
        DomainSplitter.sweepLoop_covers gpuCount actives (actives.length / gpuCount)
          (List.insertionSort DomainSplitter.leafMortonLe
            (leaves.map DomainSplitter.LeafIn.box)) 0 0 none [] rfl (fun _ => rfl)
          lf.box (by simpa using hboxmem)
      refine ⟨d, ?_, ?_⟩
      · rw [DomainSplitter.split, if_neg h1]
        exact hd
      · rw [DomainSplitter.domainVoxels, List.mem_filter]
        have hva : v ∈ actives := by
          rw [hact, List.mem_flatten]
          exact ⟨lf.voxels, List.mem_map.mpr ⟨lf, hlf, rfl⟩, hvin⟩
        exact ⟨hva, decide_eq_true (hcov v hins)⟩
  · intro d _ v hvd
    rw [DomainSplitter.domainVoxels] at hvd
    exact (List.mem_filter.mp hvd).1

/-- Witness for c5_domain_union_covers_actives on the three-leaf grid of the
counterexample. -/
theorem c5_domain_union_covers_actives_witness :
    (∀ v ∈ [(⟨0,0,0⟩ : Coord3), ⟨7,7,7⟩, ⟨8,0,0⟩, ⟨0,8,0⟩],
      ∃ d ∈ DomainSplitter.split 2 ⟨⟨0,0,0⟩, ⟨8,8,7⟩⟩
          [⟨⟨⟨0,0,0⟩, ⟨7,7,7⟩⟩, [⟨0,0,0⟩, ⟨7,7,7⟩]⟩,
           ⟨⟨⟨8,0,0⟩, ⟨8,0,0⟩⟩, [⟨8,0,0⟩]⟩,
           ⟨⟨⟨0,8,0⟩, ⟨0,8,0⟩⟩, [⟨0,8,0⟩]⟩]
          [⟨0,0,0⟩, ⟨7,7,7⟩, ⟨8,0,0⟩, ⟨0,8,0⟩],
        v ∈ DomainSplitter.domainVoxels [⟨0,0,0⟩, ⟨7,7,7⟩, ⟨8,0,0⟩, ⟨0,8,0⟩] d) ∧
    (∀ d ∈ DomainSplitter.split 2 ⟨⟨0,0,0⟩, ⟨8,8,7⟩⟩
          [⟨⟨⟨0,0,0⟩, ⟨7,7,7⟩⟩, [⟨0,0,0⟩, ⟨7,7,7⟩]⟩,
           ⟨⟨⟨8,0,0⟩, ⟨8,0,0⟩⟩, [⟨8,0,0⟩]⟩,
           ⟨⟨⟨0,8,0⟩, ⟨0,8,0⟩⟩, [⟨0,8,0⟩]⟩]
          [⟨0,0,0⟩, ⟨7,7,7⟩, ⟨8,0,0⟩, ⟨0,8,0⟩],
      ∀ v ∈ DomainSplitter.domainVoxels [⟨0,0,0⟩, ⟨7,7,7⟩, ⟨8,0,0⟩, ⟨0,8,0⟩] d,
        v ∈ [(⟨0,0,0⟩ : Coord3), ⟨7,7,7⟩, ⟨8,0,0⟩, ⟨0,8,0⟩]) :=
  c5_domain_union_covers_actives 2 ⟨⟨0,0,0⟩, ⟨8,8,7⟩⟩
    [⟨⟨⟨0,0,0⟩, ⟨7,7,7⟩⟩, [⟨0,0,0⟩, ⟨7,7,7⟩]⟩,
     ⟨⟨⟨8,0,0⟩, ⟨8,0,0⟩⟩, [⟨8,0,0⟩]⟩,
     ⟨⟨⟨0,8,0⟩, ⟨0,8,0⟩⟩, [⟨0,8,0⟩]⟩]
    [⟨0,0,0⟩, ⟨7,7,7⟩, ⟨8,0,0⟩, ⟨0,8,0⟩]
    (by decide) (by decide) (by decide) (by decide) (by decide)
